import Mathlib

/-!
Verification development for the Mia project scaffolding engine.

The repository ships a catalog of starter-project templates
(`mia/data/project_builder/templates/<language>_<framework>/...`); the
engine that consumes them (catalog lookup, variable validation,
placeholder substitution, atomic materialization) is specified in the
design document.  The template file `rust_actix/src/main.rs` is embedded
below byte for byte; the engine components are modelled from the
specification, as indicated on each definition.
-/

set_option autoImplicit false
set_option maxRecDepth 100000

/-! ## Token grammar primitives -/

/-- A letter, as used by the token grammar: identifiers must start with a
letter.  Modelled from the spec: "identifier (letters, digits, underscore;
must start with a letter)". -/
def isLetter (c : Char) : Bool := c.isAlpha

/-- A character legal inside an identifier (letters, digits, underscore).
Modelled from the spec: token grammar of the Placeholder Substitution
Engine. -/
def isIdentChar (c : Char) : Bool := c.isAlpha || c.isDigit || c == '_'

/-- Association-list lookup for variable bindings and render contexts. -/
def lookupVar : List (String × String) → String → Option String
  | [], _ => none
  | (k, v) :: rest, n => if k = n then some v else lookupVar rest n

/-- A whole string is an identifier of the token grammar: nonempty, starts
with a letter, all characters letters/digits/underscore. -/
def isIdentStr (s : String) : Bool :=
  match s.data with
  | [] => false
  | c :: cs => isLetter c && cs.all isIdentChar

/-- Longest prefix of identifier characters, together with the remainder. -/
def identSpan : List Char → List Char × List Char
  | [] => ([], [])
  | c :: cs =>
    if isIdentChar c then
      match identSpan cs with
      | (i, r) => (c :: i, r)
    else ([], c :: cs)

/-- Does this character list begin with a string matching the token
grammar, i.e. with an occurrence of two open braces, an identifier
starting with a letter, and two close braces? -/
def startsToken (l : List Char) : Bool :=
  match l with
  | '{' :: '{' :: c :: rest =>
    isLetter c &&
      (match (identSpan (c :: rest)).2 with
       | '}' :: '}' :: _ => true
       | _ => false)
  | _ => false

/-- Does some substring of this character list match the token grammar?
This is the scan used by the spec's "totality of substitution" check. -/
def hasTokenSub (l : List Char) : Bool := l.tails.any startsToken

/-- A whole string matches the token grammar exactly (two open braces, an
identifier, two close braces, nothing else). -/
def isTokenStr (s : String) : Bool :=
  match s.data with
  | '{' :: '{' :: c :: rest =>
    isLetter c &&
      (match (identSpan (c :: rest)).2 with
       | ['}', '}'] => true
       | _ => false)
  | _ => false

/-- No brace character occurs in the list. -/
def braceFree (l : List Char) : Bool := l.all (fun c => !(c == '{' || c == '}'))

/-- No two adjacent characters form a double open brace or a double close
brace. -/
def noDoubles : List Char → Bool
  | [] => true
  | [_] => true
  | a :: b :: rest =>
    !((a == '{' && b == '{') || (a == '}' && b == '}')) && noDoubles (b :: rest)

/-! ## The substitution engine

Modelled from the spec: "a small lexer/parser for the token grammar", with
flat `{{identifier}}` substitution, an escaped doubled-delimiter form
(`{{{{` renders as a literal `{{`, `}}}}` as a literal `}}`), and a hard
`UndefinedVariable` failure on a token whose identifier has no binding.
Stray braces that open no valid token are passed through literally. -/

/-- Render errors of the pure substitution engine. -/
inductive RenderError where
  | UndefinedVariable (id : String)
deriving DecidableEq

/-- The substitution scanner.  The second argument is `none` in literal
mode and `some acc` while the characters `acc` of an identifier have been
read after a double open brace.  Modelled from the spec (section 4.2). -/
def renderAux (ctx : List (String × String)) :
    List Char → Option (List Char) → Except RenderError (List Char)
  | [], none => .ok []
  | '{' :: '{' :: '{' :: '{' :: rest, none =>
    (fun o => '{' :: '{' :: o) <$> renderAux ctx rest none
  | '}' :: '}' :: '}' :: '}' :: rest, none =>
    (fun o => '}' :: '}' :: o) <$> renderAux ctx rest none
  | '{' :: '{' :: c :: rest, none =>
    if isLetter c then renderAux ctx rest (some [c])
    else (fun o => '{' :: '{' :: c :: o) <$> renderAux ctx rest none
  | c :: cs, none => (fun o => c :: o) <$> renderAux ctx cs none
  | [], some acc => .ok ('{' :: '{' :: acc)
  | '}' :: '}' :: rest, some acc =>
    (match lookupVar ctx (String.mk acc) with
     | some v => (fun o => v.data ++ o) <$> renderAux ctx rest none
     | none => .error (.UndefinedVariable (String.mk acc)))
  | c :: rest, some acc =>
    if isIdentChar c then renderAux ctx rest (some (acc ++ [c]))
    else (fun o => '{' :: '{' :: (acc ++ c :: o)) <$> renderAux ctx rest none

/-- `render(text, context)`: the pure substitution engine of the spec. -/
def renderString (ctx : List (String × String)) (s : String) :
    Except RenderError String :=
  (fun l => String.mk l) <$> renderAux ctx s.data none

/-- The token scanner: lists the identifiers of all placeholder tokens the
substitution engine recognizes in the text, in order.  It follows exactly
the lexical structure of `renderAux`. -/
def lexAux : List Char → Option (List Char) → List String
  | [], _ => []
  | '{' :: '{' :: '{' :: '{' :: rest, none => lexAux rest none
  | '}' :: '}' :: '}' :: '}' :: rest, none => lexAux rest none
  | '{' :: '{' :: c :: rest, none =>
    if isLetter c then lexAux rest (some [c]) else lexAux rest none
  | _ :: cs, none => lexAux cs none
  | '}' :: '}' :: rest, some acc => String.mk acc :: lexAux rest none
  | c :: rest, some acc =>
    if isIdentChar c then lexAux rest (some (acc ++ [c])) else lexAux rest none

/-- Identifiers of the placeholder tokens occurring in a string. -/
def lexTokens (s : String) : List String := lexAux s.data none

/-- Well-braced scanner: `true` when every brace of the text belongs to a
valid placeholder token (no escapes, no stray braces).  The flag is `true`
while inside a token. -/
def wbAux : List Char → Bool → Bool
  | [], false => true
  | [], true => false
  | '{' :: '{' :: c :: rest, false => isLetter c && wbAux rest true
  | '{' :: _, false => false
  | '}' :: _, false => false
  | _ :: cs, false => wbAux cs false
  | '}' :: '}' :: rest, true => wbAux rest false
  | c :: rest, true => isIdentChar c && wbAux rest true

/-- A string is well braced when its braces occur only as delimiters of
valid placeholder tokens. -/
def wellBracedStr (s : String) : Bool := wbAux s.data false

/-! ## Variable schema and validation

Modelled from the spec (sections 3 and 4.3): a declared variable schema
(required flag, optional default, naming rule) is the single source of
truth; `validate` applies defaults, reports a missing required variable as
`MissingRequiredVariable`, and a naming-rule violation as
`InvalidVariable` citing the variable and the violated rule. -/

/-- The closed set of naming rules of the Variable Validator. -/
inductive NamingRule where
  | freeText
  | identifier
  | packageName
  | displayName
deriving DecidableEq

/-- A declared variable of a template schema. -/
structure VarSpec where
  name : String
  required : Bool
  default : Option String
  rule : NamingRule
deriving DecidableEq

/-- Error taxonomy of the engine (spec section 7). -/
inductive GenError where
  | TemplateNotFound (key : String)
  | MissingRequiredVariable (name : String)
  | InvalidVariable (name : String) (rule : NamingRule)
  | UndefinedVariable (id : String) (file : String)
  | FileConflict (path : List String)
  | StagingIOFailure
  | CommitIOFailure
deriving DecidableEq

/-- Naming-rule checks.  Modelled from the spec: `identifier` is a bare
identifier of bounded length (the bound, left open by the spec, is fixed
at 64); `package-name` is lowercase, hyphen- or underscore-separated, with
no leading digit; `free-text` and `display-name` accept anything. -/
def checkRule : NamingRule → String → Bool
  | .freeText, _ => true
  | .displayName, _ => true
  | .identifier, s =>
    (match s.data with
     | [] => false
     | c :: _ => isLetter c) && s.data.all isIdentChar && s.length ≤ 64
  | .packageName, s =>
    (match s.data with
     | [] => false
     | c :: _ => c.isLower) &&
      s.data.all (fun c => c.isLower || c.isDigit || c == '-' || c == '_')

/-- First declared variable that is required but has neither a supplied
value nor a default. -/
def findMissing (schema : List VarSpec) (bindings : List (String × String)) :
    Option VarSpec :=
  schema.find? (fun v => v.required && (lookupVar bindings v.name).isNone && v.default.isNone)

/-- Resolve each declared variable to a value (supplied or default),
checking its naming rule; variables with no value and no default are
omitted from the context. -/
def resolveVars (bindings : List (String × String)) :
    List VarSpec → Except GenError (List (String × String))
  | [] => .ok []
  | v :: rest =>
    match lookupVar bindings v.name with
    | some val =>
      if checkRule v.rule val then
        (fun ctx => (v.name, val) :: ctx) <$> resolveVars bindings rest
      else .error (.InvalidVariable v.name v.rule)
    | none =>
      match v.default with
      | some val =>
        if checkRule v.rule val then
          (fun ctx => (v.name, val) :: ctx) <$> resolveVars bindings rest
        else .error (.InvalidVariable v.name v.rule)
      | none => resolveVars bindings rest

/-- `validate(schema, bindings)`: all required variables must be supplied
or defaulted, and every resolved value must satisfy its naming rule. -/
def validate (schema : List VarSpec) (bindings : List (String × String)) :
    Except GenError (List (String × String)) :=
  match findMissing schema bindings with
  | some v => .error (.MissingRequiredVariable v.name)
  | none => resolveVars bindings schema

/-! ## Templates, rendering of files, manifests -/

/-- A template of the catalog: key, file tree (relative path segments and
text content), declared variable schema.  Modelled from the spec
(section 3, `TemplateDescriptor`). -/
structure TemplateDescriptor where
  key : String
  files : List (List String × String)
  schema : List VarSpec

/-- `mapM` for `Except`, written out so that it computes by structural
recursion. -/
def mapME {α β : Type} (f : α → Except GenError β) : List α → Except GenError (List β)
  | [] => .ok []
  | a :: l =>
    match f a with
    | .error e => .error e
    | .ok b => (fun bs => b :: bs) <$> mapME f l

/-- Path rendered for messages: segments joined by a slash. -/
def pathStr (p : List String) : String := String.intercalate "/" p

/-- Render one template file: both the relative path segments and the
content go through the substitution engine; an unresolved token is
reported with its identifier and the file it occurred in. -/
def renderFile (ctx : List (String × String)) (f : List String × String) :
    Except GenError (List String × String) :=
  match mapME (fun seg =>
      match renderString ctx seg with
      | .ok r => .ok r
      | .error (.UndefinedVariable id) => .error (.UndefinedVariable id (pathStr f.1))) f.1 with
  | .error e => .error e
  | .ok segs =>
    match renderString ctx f.2 with
    | .ok content => .ok (segs, content)
    | .error (.UndefinedVariable id) => .error (.UndefinedVariable id (pathStr f.1))

/-- Render every file of a template tree (contents and names). -/
def renderTemplate (ctx : List (String × String))
    (files : List (List String × String)) :
    Except GenError (List (List String × String)) :=
  mapME (renderFile ctx) files

/-- Content hash recorded in manifests: a 64-bit polynomial rolling hash
of the bytes. -/
def strHash (s : String) : Nat :=
  s.data.foldl (fun h c => (h * 31 + c.toNat) % (2 ^ 64)) 5381

/-- One manifest entry: relative path, byte size, content hash. -/
structure ManifestEntry where
  path : List String
  size : Nat
  hash : Nat
deriving DecidableEq

/-- `GeneratedProject`: target root plus ordered manifest of written
files. -/
structure GeneratedProject where
  root : List String
  manifest : List ManifestEntry
deriving DecidableEq

/-- Manifest of a rendered tree. -/
def mkManifest (staged : List (List String × String)) : List ManifestEntry :=
  staged.map (fun f => ⟨f.1, f.2.utf8ByteSize, strHash f.2⟩)

/-! ## File system model and the Project Materializer

Modelled from the spec (section 4.4): the file system is a finite map
from absolute paths (segment lists) to file contents; a request renders
into a private staging location, checks the conflict policy against the
pre-existing target, and on success promotes the staged tree onto the
target in one step; on any failure after staging begins the staging
location is deleted.  IO fallibility of the staging and commit writes is
an explicit environment input. -/

/-- The file system: a list of (absolute path, content) files. -/
abbrev Fs := List (List String × String)

/-- `isUnder root p`: the path `p` lies inside the directory `root`. -/
def isUnder : List String → List String → Bool
  | [], _ => true
  | _ :: _, [] => false
  | a :: as, b :: bs => a == b && isUnder as bs

/-- The directory exists and is non-empty: some file lies under it. -/
def hasEntryUnder (fs : Fs) (root : List String) : Bool :=
  fs.any (fun e => isUnder root e.1)

/-- First file colliding with the target directory, if any. -/
def findCollision (fs : Fs) (root : List String) : Option (List String) :=
  (fs.find? (fun e => isUnder root e.1)).map (fun e => e.1)

/-- Delete every file under a directory. -/
def eraseUnder (fs : Fs) (root : List String) : Fs :=
  fs.filter (fun e => !isUnder root e.1)

/-- Place a rendered tree below a root directory. -/
def placeAt (root : List String) (staged : List (List String × String)) : Fs :=
  staged.map (fun f => (root ++ f.1, f.2))

/-- Write the rendered tree into the staging location. -/
def stageWrite (fs : Fs) (stagingPath : List String)
    (staged : List (List String × String)) : Fs :=
  fs ++ placeAt stagingPath staged

/-- Promote the staged tree onto the target path as one operation: the
staging location disappears, the target is replaced by the staged tree. -/
def promote (fs : Fs) (stagingPath targetPath : List String)
    (staged : List (List String × String)) : Fs :=
  eraseUnder (eraseUnder fs stagingPath) targetPath ++ placeAt targetPath staged

/-- Files of `fs` under `root`, with `root` stripped. -/
def projectFiles (fs : Fs) (root : List String) : List (List String × String) :=
  fs.filterMap (fun e => if isUnder root e.1 then some (e.1.drop root.length, e.2) else none)

/-- Caller-selected conflict policy (spec section 6). -/
inductive ConflictPolicy where
  | abort
  | overwrite
deriving DecidableEq

/-- A generation request (spec section 6). -/
structure Request where
  templateKey : String
  bindings : List (String × String)
  targetPath : List String
  conflictPolicy : ConflictPolicy

/-- Whether the staging write and the commit write succeed; file-system
failure is environment state the engine cannot fix by retrying. -/
structure IOEnv where
  stagingOk : Bool
  commitOk : Bool

/-- The Committing phase: conflict policy is checked before any visible
write; on failure the staging location is deleted; on success the staged
tree is promoted onto the target. -/
def commitPhase (req : Request) (stagingPath : List String) (env : IOEnv) (fs : Fs)
    (staged : List (List String × String)) : Except GenError GeneratedProject × Fs :=
  let fs1 := stageWrite fs stagingPath staged
  match findCollision fs req.targetPath with
  | some p =>
    if req.conflictPolicy = .abort then
      (.error (.FileConflict p), eraseUnder fs1 stagingPath)
    else if env.commitOk then
      (.ok ⟨req.targetPath, mkManifest staged⟩, promote fs1 stagingPath req.targetPath staged)
    else (.error .CommitIOFailure, eraseUnder fs1 stagingPath)
  | none =>
    if env.commitOk then
      (.ok ⟨req.targetPath, mkManifest staged⟩, promote fs1 stagingPath req.targetPath staged)
    else (.error .CommitIOFailure, eraseUnder fs1 stagingPath)

/-- The Project Materializer: Resolving, Validating, Staging, Committing,
in order; the result is the generation outcome together with the file
system after the call. -/
def generate (catalog : List TemplateDescriptor) (req : Request)
    (stagingPath : List String) (env : IOEnv) (fs : Fs) :
    Except GenError GeneratedProject × Fs :=
  match catalog.find? (fun t => t.key == req.templateKey) with
  | none => (.error (.TemplateNotFound req.templateKey), fs)
  | some tmpl =>
    match validate tmpl.schema req.bindings with
    | .error e => (.error e, fs)
    | .ok ctx =>
      match renderTemplate ctx tmpl.files with
      | .error e => (.error e, fs)
      | .ok staged =>
        if env.stagingOk then commitPhase req stagingPath env fs staged
        else (.error .StagingIOFailure, eraseUnder (stageWrite fs stagingPath staged) stagingPath)

/-! ## The rust_actix template, embedded from the source -/

/-- Byte-for-byte content of
`src/mia/data/project_builder/templates/rust_actix/src/main.rs`. -/
def rustActixMainRs : String := "use actix_web::\x7bweb, App, HttpResponse, HttpServer, Result\x7d;\nuse serde_json::json;\n\nasync fn index() -> Result<HttpResponse> \x7b\n    Ok(HttpResponse::Ok().json(json!(\x7b\n        \"message\": \"Welcome to \x7b\x7bproject_name\x7d\x7d\"\n    \x7d)))\n\x7d\n\nasync fn health() -> Result<HttpResponse> \x7b\n    Ok(HttpResponse::Ok().json(json!(\x7b\n        \"status\": \"healthy\"\n    \x7d)))\n\x7d\n\n#[actix_web::main]\nasync fn main() -> std::io::Result<()> \x7b\n    env_logger::init();\n    \n    println!(\"Starting \x7b\x7bproject_name\x7d\x7d server...\");\n    \n    HttpServer::new(|| \x7b\n        App::new()\n            .route(\"/\", web::get().to(index))\n            .route(\"/health\", web::get().to(health))\n    \x7d)\n    .bind(\"0.0.0.0:8080\")?\n    .run()\n    .await\n\x7d"

/-- The bytes of `main.rs` before the first `\x7b\x7bproject_name\x7d\x7d` token. -/
def rustA : String := "use actix_web::\x7bweb, App, HttpResponse, HttpServer, Result\x7d;\nuse serde_json::json;\n\nasync fn index() -> Result<HttpResponse> \x7b\n    Ok(HttpResponse::Ok().json(json!(\x7b\n        \"message\": \"Welcome to "

/-- The bytes of `main.rs` between the two tokens. -/
def rustB : String := "\"\n    \x7d)))\n\x7d\n\nasync fn health() -> Result<HttpResponse> \x7b\n    Ok(HttpResponse::Ok().json(json!(\x7b\n        \"status\": \"healthy\"\n    \x7d)))\n\x7d\n\n#[actix_web::main]\nasync fn main() -> std::io::Result<()> \x7b\n    env_logger::init();\n    \n    println!(\"Starting "

/-- The bytes of `main.rs` after the second token. -/
def rustC : String := " server...\");\n    \n    HttpServer::new(|| \x7b\n        App::new()\n            .route(\"/\", web::get().to(index))\n            .route(\"/health\", web::get().to(health))\n    \x7d)\n    .bind(\"0.0.0.0:8080\")?\n    .run()\n    .await\n\x7d"

/-- The rust_actix template: the observed file tree, with the variable
schema modelled from the spec (the example scenario declares
`project_name` with rule `package-name`, required, no default). -/
def rustActixTemplate : TemplateDescriptor :=
  ⟨"rust_actix", [(["src", "main.rs"], rustActixMainRs)],
   [⟨"project_name", true, none, .packageName⟩]⟩

/-- The template catalog of the repository, as far as it is observable. -/
def miaCatalog : List TemplateDescriptor := [rustActixTemplate]

/-! ## Reduction lemmas for the scanners -/

theorem renderAux_lit (ctx : List (String × String)) (c : Char) (hc1 : c ≠ '{')
    (hc2 : c ≠ '}') (cs : List Char) :
    renderAux ctx (c :: cs) none = (fun o => c :: o) <$> renderAux ctx cs none := by
  rw [renderAux.eq_def]; simp [hc1, hc2]

theorem renderAux_openTok (ctx : List (String × String)) (c : Char)
    (hc : isLetter c = true) (rest : List Char) :
    renderAux ctx ('{' :: '{' :: c :: rest) none = renderAux ctx rest (some [c]) := by
  have hc' : c ≠ '{' := by rintro rfl; simp [isLetter] at hc
  rw [renderAux.eq_def]; simp [hc, hc']

theorem renderAux_openNoTok (ctx : List (String × String)) (c : Char)
    (hc : isLetter c = false) (rest : List Char)
    (hesc : ∀ r, c = '{' → rest = '{' :: r → False) :
    renderAux ctx ('{' :: '{' :: c :: rest) none =
      (fun o => '{' :: '{' :: c :: o) <$> renderAux ctx rest none := by
  by_cases hc' : c = '{'
  · subst hc'
    rcases rest with _ | ⟨d, r⟩
    · rfl
    · by_cases hd : d = '{'
      · subst hd; exact (hesc r rfl rfl).elim
      · rw [renderAux.eq_def]; simp [hd, hc]
  · rw [renderAux.eq_def]; simp [hc, hc']

theorem renderAux_openSingle (ctx : List (String × String)) (b : Char) (hb : b ≠ '{')
    (cs : List Char) :
    renderAux ctx ('{' :: b :: cs) none = (fun o => '{' :: o) <$> renderAux ctx (b :: cs) none := by
  rw [renderAux.eq_def]; simp [hb]

theorem renderAux_closeSingle (ctx : List (String × String)) (b : Char) (hb : b ≠ '}')
    (cs : List Char) :
    renderAux ctx ('}' :: b :: cs) none = (fun o => '}' :: o) <$> renderAux ctx (b :: cs) none := by
  rw [renderAux.eq_def]; simp [hb]

theorem renderAux_scanStep (ctx : List (String × String)) (c : Char)
    (hc : isIdentChar c = true) (rest acc : List Char) :
    renderAux ctx (c :: rest) (some acc) = renderAux ctx rest (some (acc ++ [c])) := by
  have hc' : c ≠ '}' := by rintro rfl; simp [isIdentChar] at hc
  rw [renderAux.eq_def]; simp [hc, hc']

theorem renderAux_scanClose (ctx : List (String × String)) (rest acc : List Char) :
    renderAux ctx ('}' :: '}' :: rest) (some acc) =
      (match lookupVar ctx (String.mk acc) with
       | some v => (fun o => v.data ++ o) <$> renderAux ctx rest none
       | none => .error (.UndefinedVariable (String.mk acc))) := by
  rw [renderAux.eq_def]; simp

theorem lexAux_lit (c : Char) (hc1 : c ≠ '{') (hc2 : c ≠ '}') (cs : List Char) :
    lexAux (c :: cs) none = lexAux cs none := by
  rw [lexAux.eq_def]; simp [hc1, hc2]

theorem lexAux_openTok (c : Char) (hc : isLetter c = true) (rest : List Char) :
    lexAux ('{' :: '{' :: c :: rest) none = lexAux rest (some [c]) := by
  have hc' : c ≠ '{' := by rintro rfl; simp [isLetter] at hc
  rw [lexAux.eq_def]; simp [hc, hc']

theorem lexAux_openNoTok (c : Char) (hc : isLetter c = false) (rest : List Char)
    (hesc : ∀ r, c = '{' → rest = '{' :: r → False) :
    lexAux ('{' :: '{' :: c :: rest) none = lexAux rest none := by
  by_cases hc' : c = '{'
  · subst hc'
    rcases rest with _ | ⟨d, r⟩
    · rfl
    · by_cases hd : d = '{'
      · subst hd; exact (hesc r rfl rfl).elim
      · rw [lexAux.eq_def]; simp [hd, hc]
  · rw [lexAux.eq_def]; simp [hc, hc']

theorem lexAux_openSingle (b : Char) (hb : b ≠ '{') (cs : List Char) :
    lexAux ('{' :: b :: cs) none = lexAux (b :: cs) none := by
  rw [lexAux.eq_def]; simp [hb]

theorem lexAux_closeSingle (b : Char) (hb : b ≠ '}') (cs : List Char) :
    lexAux ('}' :: b :: cs) none = lexAux (b :: cs) none := by
  rw [lexAux.eq_def]; simp [hb]

theorem lexAux_scanStep (c : Char) (hc : isIdentChar c = true) (rest acc : List Char) :
    lexAux (c :: rest) (some acc) = lexAux rest (some (acc ++ [c])) := by
  have hc' : c ≠ '}' := by rintro rfl; simp [isIdentChar] at hc
  rw [lexAux.eq_def]; simp [hc, hc']

theorem lexAux_scanClose (rest acc : List Char) :
    lexAux ('}' :: '}' :: rest) (some acc) = String.mk acc :: lexAux rest none := by
  rw [lexAux.eq_def]; simp

/-! ## Pass-through and substitution lemmas -/

/-- The last character of the list is an open brace. -/
def endsOpen : List Char → Bool
  | [] => false
  | [c] => c == '{'
  | _ :: rest => endsOpen rest

theorem braceFree_cons (c : Char) (l : List Char) (h : braceFree (c :: l) = true) :
    c ≠ '{' ∧ c ≠ '}' ∧ braceFree l = true := by
  simp [braceFree] at h ⊢
  exact ⟨h.1.1, h.1.2, h.2⟩

theorem braceFree_append (l₁ l₂ : List Char) :
    braceFree (l₁ ++ l₂) = (braceFree l₁ && braceFree l₂) := by
  simp [braceFree, List.all_append]

theorem renderAux_append_braceFree (ctx : List (String × String)) (l : List Char)
    (h : braceFree l = true) (rest : List Char) :
    renderAux ctx (l ++ rest) none = (fun o => l ++ o) <$> renderAux ctx rest none := by
  induction l with
  | nil =>
    simp only [List.nil_append]
    rcases renderAux ctx rest none with e | o <;> simp [Except.map]
  | cons c cs ih =>
    obtain ⟨hc1, hc2, hcs⟩ := braceFree_cons c cs h
    rw [List.cons_append, renderAux_lit ctx c hc1 hc2, ih hcs]
    rcases renderAux ctx rest none with e | o <;> simp [Except.map]

theorem renderAux_braceFree_ok (ctx : List (String × String)) (l : List Char)
    (h : braceFree l = true) :
    renderAux ctx l none = .ok l := by
  have h0 := renderAux_append_braceFree ctx l h []
  have h1 : renderAux ctx [] none = .ok [] := rfl
  rw [h1] at h0
  simpa [Except.map] using h0

theorem renderAux_scanIdent (ctx : List (String × String)) (l : List Char)
    (h : l.all isIdentChar = true) (acc rest : List Char) :
    renderAux ctx (l ++ rest) (some acc) = renderAux ctx rest (some (acc ++ l)) := by
  induction l generalizing acc with
  | nil => simp
  | cons c cs ih =>
    simp only [List.all_cons, Bool.and_eq_true] at h
    rw [List.cons_append, renderAux_scanStep ctx c h.1, ih h.2]
    simp

theorem renderAux_token (ctx : List (String × String)) (id : String)
    (hid : isIdentStr id = true) (rest : List Char) :
    renderAux ctx ('{' :: '{' :: (id.data ++ '}' :: '}' :: rest)) none =
      (match lookupVar ctx id with
       | some v => (fun o => v.data ++ o) <$> renderAux ctx rest none
       | none => .error (.UndefinedVariable id)) := by
  unfold isIdentStr at hid
  rcases hd : id.data with _ | ⟨c, cs⟩
  · rw [hd] at hid; simp at hid
  · rw [hd] at hid
    simp only [Bool.and_eq_true] at hid
    rw [List.cons_append, renderAux_openTok ctx c hid.1,
        renderAux_scanIdent ctx cs hid.2 [c], renderAux_scanClose]
    have hmk : String.mk ([c] ++ cs) = id := by
      apply String.ext; rw [hd]; rfl
    rw [hmk]

theorem noDoubles_cons2 (a b : Char) (l : List Char) (h : noDoubles (a :: b :: l) = true) :
    (a = '{' → b ≠ '{') ∧ (a = '}' → b ≠ '}') ∧ noDoubles (b :: l) = true := by
  rw [noDoubles] at h
  simp only [Bool.and_eq_true, Bool.not_eq_true', Bool.or_eq_false_iff,
    Bool.and_eq_false_iff, beq_eq_false_iff_ne, ne_eq, beq_iff_eq] at h
  refine ⟨?_, ?_, h.2⟩
  · intro h1; rcases h.1.1 with h' | h' <;> simp_all
  · intro h1; rcases h.1.2 with h' | h' <;> simp_all

theorem endsOpen_cons2 (a b : Char) (l : List Char) :
    endsOpen (a :: b :: l) = endsOpen (b :: l) := rfl

theorem renderAux_single (ctx : List (String × String)) (a : Char) :
    renderAux ctx [a] none = .ok [a] := by
  by_cases h1 : a = '{'
  · subst h1; rfl
  · by_cases h2 : a = '}'
    · subst h2; rfl
    · rw [renderAux_lit ctx a h1 h2]; rfl

theorem renderAux_noDoubles_ok (ctx : List (String × String)) (l : List Char)
    (h : noDoubles l = true) :
    renderAux ctx l none = .ok l := by
  induction l with
  | nil => rfl
  | cons a l' ih =>
    cases l' with
    | nil => exact renderAux_single ctx a
    | cons b l'' =>
      obtain ⟨h1, h2, h3⟩ := noDoubles_cons2 a b l'' h
      have ihres := ih h3
      by_cases ha : a = '{'
      · subst ha
        rw [renderAux_openSingle ctx b (fun hb => h1 rfl hb), ihres]; rfl
      · by_cases ha' : a = '}'
        · subst ha'
          rw [renderAux_closeSingle ctx b (fun hb => h2 rfl hb), ihres]; rfl
        · rw [renderAux_lit ctx a ha ha', ihres]; rfl

theorem renderAux_append_noDoubles (ctx : List (String × String)) (A : List Char)
    (hA : noDoubles A = true) (hEnd : endsOpen A = false) (rest : List Char) :
    renderAux ctx (A ++ '{' :: '{' :: rest) none =
      (fun o => A ++ o) <$> renderAux ctx ('{' :: '{' :: rest) none := by
  induction A with
  | nil =>
    simp only [List.nil_append]
    rcases renderAux ctx ('{' :: '{' :: rest) none with e | o <;> simp [Except.map]
  | cons a A' ih =>
    cases A' with
    | nil =>
      have ha : a ≠ '{' := by
        intro h; subst h; simp [endsOpen] at hEnd
      by_cases ha' : a = '}'
      · subst ha'
        rw [List.cons_append, List.nil_append,
            renderAux_closeSingle ctx '{' (by decide)]
        rcases renderAux ctx ('{' :: '{' :: rest) none with e | o <;> simp [Except.map]
      · rw [List.cons_append, List.nil_append, renderAux_lit ctx a ha ha']
        rcases renderAux ctx ('{' :: '{' :: rest) none with e | o <;> simp [Except.map]
    | cons b A'' =>
      obtain ⟨h1, h2, h3⟩ := noDoubles_cons2 a b A'' hA
      have hEnd' : endsOpen (b :: A'') = false := by
        rw [endsOpen_cons2] at hEnd; exact hEnd
      have ihres := ih h3 hEnd'
      simp only [List.cons_append] at ihres ⊢
      have step : renderAux ctx (a :: (b :: (A'' ++ '{' :: '{' :: rest))) none =
          (fun o => a :: o) <$> renderAux ctx (b :: (A'' ++ '{' :: '{' :: rest)) none := by
        by_cases ha : a = '{'
        · subst ha; exact renderAux_openSingle ctx b (fun hb => h1 rfl hb) _
        · by_cases ha' : a = '}'
          · subst ha'; exact renderAux_closeSingle ctx b (fun hb => h2 rfl hb) _
          · exact renderAux_lit ctx a ha ha' _
      rw [step, ihres]
      rcases renderAux ctx ('{' :: '{' :: rest) none with e | o <;> simp [Except.map]

/-! ## Rendering the rust_actix template -/

theorem rustActixMainRs_decomp :
    rustActixMainRs.data =
      rustA.data ++ '{' :: '{' :: ("project_name".data ++ '}' :: '}' ::
        (rustB.data ++ '{' :: '{' :: ("project_name".data ++ '}' :: '}' :: rustC.data))) := by
  rfl

theorem renderString_rustActix (ctx : List (String × String)) (v : String)
    (hv : lookupVar ctx "project_name" = some v) :
    renderString ctx rustActixMainRs = .ok (rustA ++ v ++ rustB ++ v ++ rustC) := by
  have hA : noDoubles rustA.data = true := by decide
  have hAe : endsOpen rustA.data = false := by decide
  have hB : noDoubles rustB.data = true := by decide
  have hBe : endsOpen rustB.data = false := by decide
  have hC : noDoubles rustC.data = true := by decide
  have hid : isIdentStr "project_name" = true := by decide
  unfold renderString
  rw [rustActixMainRs_decomp, renderAux_append_noDoubles ctx _ hA hAe,
      renderAux_token ctx _ hid, hv,
      renderAux_append_noDoubles ctx _ hB hBe,
      renderAux_token ctx _ hid, hv,
      renderAux_noDoubles_ok ctx _ hC]
  simp only [Except.map]
  refine congrArg Except.ok (String.ext ?_)
  simp [String.data_append, List.append_assoc]

/-! ## Generic-branch reductions for the scanners -/

theorem lexAux_generic (c : Char) (cs : List Char)
    (h1 : ∀ r, c = '{' → cs = '{' :: '{' :: '{' :: r → False)
    (h2 : ∀ r, c = '}' → cs = '}' :: '}' :: '}' :: r → False)
    (h3 : ∀ d r, c = '{' → cs = '{' :: d :: r → False) :
    lexAux (c :: cs) none = lexAux cs none := by
  by_cases hc : c = '{'
  · subst hc
    rcases cs with _ | ⟨d, cs'⟩
    · rfl
    · by_cases hd : d = '{'
      · subst hd
        rcases cs' with _ | ⟨e, r⟩
        · rfl
        · exact (h3 e r rfl rfl).elim
      · exact lexAux_openSingle d hd cs'
  · by_cases hc' : c = '}'
    · subst hc'
      rcases cs with _ | ⟨d1, cs1⟩
      · rfl
      · by_cases hd1 : d1 = '}'
        · subst hd1
          rcases cs1 with _ | ⟨d2, cs2⟩
          · rfl
          · by_cases hd2 : d2 = '}'
            · subst hd2
              rcases cs2 with _ | ⟨d3, cs3⟩
              · rfl
              · by_cases hd3 : d3 = '}'
                · subst hd3; exact (h2 cs3 rfl rfl).elim
                · rw [lexAux.eq_def]; simp [hd3]
            · rw [lexAux.eq_def]; simp [hd2]
        · exact lexAux_closeSingle d1 hd1 cs1
    · exact lexAux_lit c hc hc' cs

theorem renderAux_generic (ctx : List (String × String)) (c : Char) (cs : List Char)
    (h1 : ∀ r, c = '{' → cs = '{' :: '{' :: '{' :: r → False)
    (h2 : ∀ r, c = '}' → cs = '}' :: '}' :: '}' :: r → False)
    (h3 : ∀ d r, c = '{' → cs = '{' :: d :: r → False) :
    renderAux ctx (c :: cs) none = (fun o => c :: o) <$> renderAux ctx cs none := by
  by_cases hc : c = '{'
  · subst hc
    rcases cs with _ | ⟨d, cs'⟩
    · rfl
    · by_cases hd : d = '{'
      · subst hd
        rcases cs' with _ | ⟨e, r⟩
        · rfl
        · exact (h3 e r rfl rfl).elim
      · exact renderAux_openSingle ctx d hd cs'
  · by_cases hc' : c = '}'
    · subst hc'
      rcases cs with _ | ⟨d1, cs1⟩
      · rfl
      · by_cases hd1 : d1 = '}'
        · subst hd1
          rcases cs1 with _ | ⟨d2, cs2⟩
          · rfl
          · by_cases hd2 : d2 = '}'
            · subst hd2
              rcases cs2 with _ | ⟨d3, cs3⟩
              · rfl
              · by_cases hd3 : d3 = '}'
                · subst hd3; exact (h2 cs3 rfl rfl).elim
                · rw [renderAux.eq_def]; simp [hd3]
            · rw [renderAux.eq_def]; simp [hd2]
        · exact renderAux_closeSingle ctx d1 hd1 cs1
    · exact renderAux_lit ctx c hc hc' cs

theorem renderAux_scanBreak (ctx : List (String × String)) (c : Char)
    (hc : isIdentChar c = false) (rest acc : List Char)
    (hcl : ∀ r, c = '}' → rest = '}' :: r → False) :
    renderAux ctx (c :: rest) (some acc) =
      (fun o => '{' :: '{' :: (acc ++ c :: o)) <$> renderAux ctx rest none := by
  by_cases hc' : c = '}'
  · subst hc'
    rcases rest with _ | ⟨d, r⟩
    · rfl
    · by_cases hd : d = '}'
      · subst hd; exact (hcl r rfl rfl).elim
      · rw [renderAux.eq_def]; simp [hd, hc]
  · rw [renderAux.eq_def]; simp [hc, hc']

theorem lexAux_scanBreak (c : Char) (hc : isIdentChar c = false) (rest acc : List Char)
    (hcl : ∀ r, c = '}' → rest = '}' :: r → False) :
    lexAux (c :: rest) (some acc) = lexAux rest none := by
  by_cases hc' : c = '}'
  · subst hc'
    rcases rest with _ | ⟨d, r⟩
    · rfl
    · by_cases hd : d = '}'
      · subst hd; exact (hcl r rfl rfl).elim
      · rw [lexAux.eq_def]; simp [hd, hc]
  · rw [lexAux.eq_def]; simp [hc, hc']

/-! ## Characterization: render succeeds exactly on bound tokens -/

/-- First scanned token whose identifier has no binding. -/
def unboundIn (ctx : List (String × String)) (ts : List String) : Option String :=
  ts.find? (fun t => (lookupVar ctx t).isNone)

theorem charStep (u : Option String) (R : Except RenderError (List Char))
    (f : List Char → List Char)
    (h1 : ∀ id, u = some id → R = .error (.UndefinedVariable id))
    (h2 : u = none → ∃ out, R = .ok out) :
    (∀ id, u = some id → f <$> R = .error (.UndefinedVariable id)) ∧
      (u = none → ∃ out, f <$> R = .ok out) := by
  constructor
  · intro id hu; rw [h1 id hu]; rfl
  · intro hu
    obtain ⟨out, ho⟩ := h2 hu
    exact ⟨f out, by rw [ho]; rfl⟩

theorem renderAux_lexAux (ctx : List (String × String)) (l : List Char)
    (m : Option (List Char)) :
    (∀ id, unboundIn ctx (lexAux l m) = some id →
        renderAux ctx l m = .error (.UndefinedVariable id)) ∧
      (unboundIn ctx (lexAux l m) = none → ∃ out, renderAux ctx l m = .ok out) := by
  induction l, m using renderAux.induct ctx with
  | case1 =>
    constructor
    · intro id h; simp [unboundIn, lexAux, List.find?] at h
    · intro _; exact ⟨[], rfl⟩
  | case2 rest ih =>
    have hl : lexAux ('{' :: '{' :: '{' :: '{' :: rest) none = lexAux rest none := rfl
    have hr : renderAux ctx ('{' :: '{' :: '{' :: '{' :: rest) none =
        (fun o => '{' :: '{' :: o) <$> renderAux ctx rest none := rfl
    rw [hl, hr]
    exact charStep _ _ _ ih.1 ih.2
  | case3 rest ih =>
    have hl : lexAux ('}' :: '}' :: '}' :: '}' :: rest) none = lexAux rest none := rfl
    have hr : renderAux ctx ('}' :: '}' :: '}' :: '}' :: rest) none =
        (fun o => '}' :: '}' :: o) <$> renderAux ctx rest none := rfl
    rw [hl, hr]
    exact charStep _ _ _ ih.1 ih.2
  | case4 c rest hne hc ih =>
    rw [lexAux_openTok c hc, renderAux_openTok ctx c hc]
    exact ih
  | case5 c rest hne hc ih =>
    have hc' : isLetter c = false := by simpa using hc
    rw [lexAux_openNoTok c hc' rest (fun r h1 h2 => hne r h1 h2),
        renderAux_openNoTok ctx c hc' rest (fun r h1 h2 => hne r h1 h2)]
    exact charStep _ _ _ ih.1 ih.2
  | case6 c cs he1 he2 he3 ih =>
    rw [lexAux_generic c cs (fun r h1 h2 => he1 r h1 h2) (fun r h1 h2 => he2 r h1 h2)
          (fun d r h1 h2 => he3 d r h1 h2),
        renderAux_generic ctx c cs (fun r h1 h2 => he1 r h1 h2) (fun r h1 h2 => he2 r h1 h2)
          (fun d r h1 h2 => he3 d r h1 h2)]
    exact charStep _ _ _ ih.1 ih.2
  | case7 acc =>
    constructor
    · intro id h; simp [unboundIn, lexAux, List.find?] at h
    · intro _; exact ⟨'{' :: '{' :: acc, rfl⟩
  | case8 rest acc v hv ih =>
    rw [lexAux_scanClose, renderAux_scanClose, hv]
    have hpred : (lookupVar ctx (String.mk acc)).isNone = false := by rw [hv]; rfl
    have hred : unboundIn ctx (String.mk acc :: lexAux rest none) =
        unboundIn ctx (lexAux rest none) := by
      simp [unboundIn, List.find?, hpred]
    rw [hred]
    exact charStep _ _ _ ih.1 ih.2
  | case9 rest acc hv =>
    rw [lexAux_scanClose, renderAux_scanClose, hv]
    have hpred : (lookupVar ctx (String.mk acc)).isNone = true := by rw [hv]; rfl
    have hred : unboundIn ctx (String.mk acc :: lexAux rest none) = some (String.mk acc) := by
      simp [unboundIn, List.find?, hpred]
    rw [hred]
    constructor
    · intro id h
      have : String.mk acc = id := by injection h
      rw [this]
    · intro h; cases h
  | case10 c rest acc hcl hc ih =>
    rw [lexAux_scanStep c hc, renderAux_scanStep ctx c hc]
    exact ih
  | case11 c rest acc hcl hc ih =>
    have hc' : isIdentChar c = false := by simpa using hc
    rw [lexAux_scanBreak c hc' rest acc (fun r h1 h2 => hcl r h1 h2),
        renderAux_scanBreak ctx c hc' rest acc (fun r h1 h2 => hcl r h1 h2)]
    exact charStep _ _ _ ih.1 ih.2

/-! ## Well-braced templates render to brace-free output -/

theorem lookupVar_mem (ctx : List (String × String)) (n v : String)
    (h : lookupVar ctx n = some v) : (n, v) ∈ ctx := by
  induction ctx with
  | nil => cases h
  | cons e rest ih =>
    rcases e with ⟨k, w⟩
    rw [lookupVar] at h
    by_cases hk : k = n
    · simp [hk] at h
      simp [hk, h]
    · simp [hk] at h
      exact List.mem_cons_of_mem _ (ih h)

theorem wbAux_lit (c : Char) (hc1 : c ≠ '{') (hc2 : c ≠ '}') (cs : List Char) :
    wbAux (c :: cs) false = wbAux cs false := by
  rw [wbAux.eq_def]; simp [hc1, hc2]

theorem wbAux_strayOpen (cs : List Char) (h : ∀ d r, cs = '{' :: d :: r → False) :
    wbAux ('{' :: cs) false = false := by
  rcases cs with _ | ⟨d, r⟩
  · rfl
  · by_cases hd : d = '{'
    · subst hd
      rcases r with _ | ⟨e, r'⟩
      · rfl
      · exact (h e r' rfl).elim
    · rw [wbAux.eq_def]; simp [hd]

theorem wbAux_scanStepEq (c : Char) (hc : isIdentChar c = true) (rest : List Char) :
    wbAux (c :: rest) true = wbAux rest true := by
  have hc' : c ≠ '}' := by rintro rfl; simp [isIdentChar] at hc
  rw [wbAux.eq_def]; simp [hc, hc']

theorem wbAux_scanBreakEq (c : Char) (hc : isIdentChar c = false) (rest : List Char)
    (hcl : ∀ r, c = '}' → rest = '}' :: r → False) :
    wbAux (c :: rest) true = false := by
  by_cases hc' : c = '}'
  · subst hc'
    rcases rest with _ | ⟨d, r⟩
    · rfl
    · by_cases hd : d = '}'
      · subst hd; exact (hcl r rfl rfl).elim
      · rw [wbAux.eq_def]; simp [hd, hc]
  · rw [wbAux.eq_def]; simp [hc, hc']

theorem renderAux_wellBraced (ctx : List (String × String))
    (hctx : ∀ p v, (p, v) ∈ ctx → braceFree v.data = true) (l : List Char)
    (m : Option (List Char)) :
    ∀ out, wbAux l m.isSome = true → renderAux ctx l m = .ok out →
      braceFree out = true := by
  induction l, m using renderAux.induct ctx with
  | case1 =>
    intro out _ hok
    have : out = [] := by
      have := hok.symm
      injection this
    rw [this]; rfl
  | case2 rest ih =>
    intro out hwb hok
    simp only [Option.isSome_none] at hwb
    have h0 : isLetter '{' = false := by decide
    have heq : wbAux ('{' :: '{' :: '{' :: '{' :: rest) false =
        (isLetter '{' && wbAux ('{' :: rest) true) := rfl
    rw [heq, h0] at hwb
    simp at hwb
  | case3 rest ih =>
    intro out hwb hok
    simp only [Option.isSome_none] at hwb
    have heq : wbAux ('}' :: '}' :: '}' :: '}' :: rest) false = false := rfl
    rw [heq] at hwb
    cases hwb
  | case4 c rest hne hc ih =>
    intro out hwb hok
    simp only [Option.isSome_none] at hwb
    have heq : wbAux ('{' :: '{' :: c :: rest) false = (isLetter c && wbAux rest true) := rfl
    rw [heq, hc, Bool.true_and] at hwb
    rw [renderAux_openTok ctx c hc] at hok
    exact ih out hwb hok
  | case5 c rest hne hc ih =>
    intro out hwb hok
    simp only [Option.isSome_none] at hwb
    have hc' : isLetter c = false := by simpa using hc
    have heq : wbAux ('{' :: '{' :: c :: rest) false = (isLetter c && wbAux rest true) := rfl
    rw [heq, hc'] at hwb
    simp at hwb
  | case6 c cs he1 he2 he3 ih =>
    intro out hwb hok
    simp only [Option.isSome_none] at hwb ih
    by_cases hcb : c = '{'
    · subst hcb
      rw [wbAux_strayOpen cs (fun d r h => he3 d r rfl h)] at hwb
      cases hwb
    · by_cases hcb' : c = '}'
      · subst hcb'
        have heq : wbAux ('}' :: cs) false = false := by
          rcases cs with _ | ⟨d, r⟩
          · rfl
          · rw [wbAux.eq_def]; simp
        rw [heq] at hwb
        cases hwb
      · rw [wbAux_lit c hcb hcb' cs] at hwb
        rw [renderAux_generic ctx c cs (fun r h1 h2 => he1 r h1 h2)
              (fun r h1 h2 => he2 r h1 h2) (fun d r h1 h2 => he3 d r h1 h2)] at hok
        rcases hrc : renderAux ctx cs none with e | out'
        · rw [hrc] at hok; cases hok
        · rw [hrc] at hok
          have hout : out = c :: out' := by
            simpa [Except.map] using hok.symm
          rw [hout]
          simp only [braceFree, List.all_cons]
          have hcc : (!(c == '{' || c == '}')) = true := by simp [hcb, hcb']
          rw [hcc]
          simpa [braceFree] using ih out' hwb hrc
  | case7 acc =>
    intro out hwb hok
    simp only [Option.isSome_some] at hwb
    cases hwb
  | case8 rest acc v hv ih =>
    intro out hwb hok
    simp only [Option.isSome_some] at hwb
    simp only [Option.isSome_none] at ih
    have hwb' : wbAux rest false = true := hwb
    rw [renderAux_scanClose, hv] at hok
    rcases hrc : renderAux ctx rest none with e | out'
    · rw [hrc] at hok; cases hok
    · rw [hrc] at hok
      have hout : out = v.data ++ out' := by
        simpa [Except.map] using hok.symm
      rw [hout, braceFree_append]
      have h1 := hctx (String.mk acc) v (lookupVar_mem ctx _ v hv)
      have h2 := ih out' hwb' hrc
      simp [h1, h2]
  | case9 rest acc hv =>
    intro out hwb hok
    rw [renderAux_scanClose, hv] at hok
    cases hok
  | case10 c rest acc hcl hc ih =>
    intro out hwb hok
    simp only [Option.isSome_some] at hwb ih
    rw [wbAux_scanStepEq c hc] at hwb
    rw [renderAux_scanStep ctx c hc] at hok
    exact ih out hwb hok
  | case11 c rest acc hcl hc ih =>
    intro out hwb hok
    simp only [Option.isSome_some] at hwb
    have hc' : isIdentChar c = false := by simpa using hc
    rw [wbAux_scanBreakEq c hc' rest (fun r h1 h2 => hcl r h1 h2)] at hwb
    cases hwb

/-! ## Brace-free output contains no token; character class facts -/

theorem startsToken_of_ne (c : Char) (hc : c ≠ '{') (cs : List Char) :
    startsToken (c :: cs) = false := by
  rw [startsToken.eq_def]; simp [hc]

theorem hasTokenSub_of_braceFree (l : List Char) (h : braceFree l = true) :
    hasTokenSub l = false := by
  induction l with
  | nil => rfl
  | cons c cs ih =>
    obtain ⟨hc1, hc2, hcs⟩ := braceFree_cons c cs h
    simp only [hasTokenSub, List.tails_cons, List.any_cons, startsToken_of_ne c hc1,
      Bool.false_or]
    exact ih hcs

theorem isLower_false_of_hi (c : Char) (h : c.val.toNat < 97) : c.isLower = false := by
  cases hcl : c.isLower
  · rfl
  · exfalso
    simp only [Char.isLower, Bool.and_eq_true, decide_eq_true_eq, ge_iff_le] at hcl
    have := @UInt32.le_toNat_of_le c.val 97 (by decide) hcl.1
    omega

theorem isLower_false_of_lo (c : Char) (h : 122 < c.val.toNat) : c.isLower = false := by
  cases hcl : c.isLower
  · rfl
  · exfalso
    simp only [Char.isLower, Bool.and_eq_true, decide_eq_true_eq, ge_iff_le] at hcl
    have := @UInt32.toNat_le_of_le c.val 122 (by decide) hcl.2
    omega

theorem isDigit_false_of_hi (c : Char) (h : c.val.toNat < 48) : c.isDigit = false := by
  cases hcl : c.isDigit
  · rfl
  · exfalso
    simp only [Char.isDigit, Bool.and_eq_true, decide_eq_true_eq, ge_iff_le] at hcl
    have := @UInt32.le_toNat_of_le c.val 48 (by decide) hcl.1
    omega

theorem isDigit_false_of_lo (c : Char) (h : 57 < c.val.toNat) : c.isDigit = false := by
  cases hcl : c.isDigit
  · rfl
  · exfalso
    simp only [Char.isDigit, Bool.and_eq_true, decide_eq_true_eq, ge_iff_le] at hcl
    have := @UInt32.toNat_le_of_le c.val 57 (by decide) hcl.2
    omega

theorem isUpper_toNat (c : Char) (h : c.isUpper = true) :
    65 ≤ c.val.toNat ∧ c.val.toNat ≤ 90 := by
  simp only [Char.isUpper, Bool.and_eq_true, decide_eq_true_eq, ge_iff_le] at h
  exact ⟨@UInt32.le_toNat_of_le c.val 65 (by decide) h.1, @UInt32.toNat_le_of_le c.val 90 (by decide) h.2⟩

theorem isDigit_toNat (c : Char) (h : c.isDigit = true) :
    48 ≤ c.val.toNat ∧ c.val.toNat ≤ 57 := by
  simp only [Char.isDigit, Bool.and_eq_true, decide_eq_true_eq, ge_iff_le] at h
  exact ⟨@UInt32.le_toNat_of_le c.val 48 (by decide) h.1, @UInt32.toNat_le_of_le c.val 57 (by decide) h.2⟩

/-- The character class admitted inside `package-name` values. -/
def pkgChar (c : Char) : Bool := c.isLower || c.isDigit || c == '-' || c == '_'

theorem pkgChar_false_of_isUpper (c : Char) (h : c.isUpper = true) : pkgChar c = false := by
  obtain ⟨h1, h2⟩ := isUpper_toNat c h
  have hd : c ≠ '-' := by rintro rfl; exact absurd h1 (by decide)
  have hu : c ≠ '_' := by rintro rfl; exact absurd h2 (by decide)
  simp [pkgChar, isLower_false_of_hi c (by omega), isDigit_false_of_lo c (by omega), hd, hu]

theorem pkgChar_false_of_isWhitespace (c : Char) (h : c.isWhitespace = true) :
    pkgChar c = false := by
  simp only [Char.isWhitespace, Bool.or_eq_true, decide_eq_true_eq] at h
  rcases h with ((h | h) | h) | h <;> subst h <;> decide

theorem isLower_false_of_isDigit (c : Char) (h : c.isDigit = true) : c.isLower = false := by
  obtain ⟨h1, h2⟩ := isDigit_toNat c h
  exact isLower_false_of_hi c (by omega)

/-! ## Validator lemmas -/

theorem checkRule_packageName_eq (s : String) :
    checkRule .packageName s =
      ((match s.data with | [] => false | c :: _ => c.isLower) && s.data.all pkgChar) := rfl

theorem checkRule_pkg_false_of_mem (s : String) (c : Char) (hc : c ∈ s.data)
    (hbad : pkgChar c = false) : checkRule .packageName s = false := by
  rw [checkRule_packageName_eq]
  have hall : s.data.all pkgChar = false := by
    apply List.all_eq_false.mpr
    exact ⟨c, hc, by simp [hbad]⟩
  rw [hall, Bool.and_false]

theorem checkRule_pkg_false_of_digit_head (s : String) (c : Char) (cs : List Char)
    (hd : s.data = c :: cs) (hc : c.isDigit = true) : checkRule .packageName s = false := by
  rw [checkRule_packageName_eq, hd]
  simp [isLower_false_of_isDigit c hc]

theorem validate_missing (schema : List VarSpec) (bindings : List (String × String))
    (v : VarSpec) (hv : v ∈ schema) (hreq : v.required = true) (hdef : v.default = none)
    (hlook : lookupVar bindings v.name = none) :
    ∃ w, validate schema bindings = .error (.MissingRequiredVariable w) := by
  have hsome : (findMissing schema bindings).isSome := by
    rw [findMissing]
    apply List.find?_isSome.mpr
    exact ⟨v, hv, by simp [hreq, hdef, hlook]⟩
  obtain ⟨w, hw⟩ := Option.isSome_iff_exists.mp hsome
  refine ⟨w.name, ?_⟩
  rw [validate, hw]

theorem validate_invalid (spec : VarSpec) (bindings : List (String × String)) (val : String)
    (hlook : lookupVar bindings spec.name = some val)
    (hbad : checkRule spec.rule val = false) :
    validate [spec] bindings = .error (.InvalidVariable spec.name spec.rule) := by
  have h1 : findMissing [spec] bindings = none := by
    simp [findMissing, List.find?, hlook]
  rw [validate, h1]
  rw [resolveVars, hlook]
  simp [hbad]

/-! ## File-system lemmas -/

theorem isUnder_append_self (r q : List String) : isUnder r (r ++ q) = true := by
  induction r with
  | nil => rfl
  | cons a as ih => simp [isUnder, ih]

theorem hasEntryUnder_false (fs : Fs) (root : List String)
    (h : hasEntryUnder fs root = false) :
    ∀ e ∈ fs, isUnder root e.1 = false := by
  intro e he
  have := List.any_eq_false.mp h e he
  simpa using this

theorem eraseUnder_stageWrite (fs : Fs) (sp : List String)
    (staged : List (List String × String)) (hfresh : hasEntryUnder fs sp = false) :
    eraseUnder (stageWrite fs sp staged) sp = fs := by
  unfold eraseUnder stageWrite placeAt
  rw [List.filter_append]
  have h1 : fs.filter (fun e => !isUnder sp e.1) = fs := by
    apply List.filter_eq_self.mpr
    intro e he
    simp [hasEntryUnder_false fs sp hfresh e he]
  have h2 : (staged.map fun f => (sp ++ f.1, f.2)).filter (fun e => !isUnder sp e.1) = [] := by
    apply List.filter_eq_nil_iff.mpr
    intro e he
    simp only [List.mem_map] at he
    obtain ⟨f, hf, rfl⟩ := he
    simp [isUnder_append_self]
  rw [h1, h2, List.append_nil]

theorem filterMap_under_nil (l : Fs) (t : List String)
    (h : ∀ e ∈ l, isUnder t e.1 = false) :
    l.filterMap (fun e => if isUnder t e.1 then some (e.1.drop t.length, e.2) else none) = [] := by
  induction l with
  | nil => rfl
  | cons e l ih =>
    rw [List.filterMap_cons]
    rw [h e (List.mem_cons_self e l)]
    simp only [Bool.false_eq_true, if_false]
    exact ih (fun x hx => h x (List.mem_cons_of_mem e hx))

theorem projectFiles_promote (fs : Fs) (sp t : List String)
    (staged : List (List String × String)) :
    projectFiles (promote fs sp t staged) t = staged := by
  unfold projectFiles promote placeAt
  rw [List.filterMap_append]
  have h1 : (eraseUnder (eraseUnder fs sp) t).filterMap
      (fun e => if isUnder t e.1 then some (e.1.drop t.length, e.2) else none) = [] := by
    apply filterMap_under_nil
    intro e he
    unfold eraseUnder at he
    have := List.of_mem_filter he
    simpa using this
  have h2 : (staged.map fun f => (t ++ f.1, f.2)).filterMap
      (fun e => if isUnder t e.1 then some (e.1.drop t.length, e.2) else none) = staged := by
    induction staged with
    | nil => rfl
    | cons f l ih =>
      rw [List.map_cons, List.filterMap_cons]
      simp only [isUnder_append_self, if_true, List.drop_left]
      rw [ih]
  rw [h1, h2, List.nil_append]

theorem generate_eq_notfound (catalog : List TemplateDescriptor) (req : Request)
    (sp : List String) (env : IOEnv) (fs : Fs)
    (hf : catalog.find? (fun t => t.key == req.templateKey) = none) :
    generate catalog req sp env fs = (.error (.TemplateNotFound req.templateKey), fs) := by
  unfold generate; rw [hf]

theorem generate_eq_valfail (catalog : List TemplateDescriptor) (req : Request)
    (sp : List String) (env : IOEnv) (fs : Fs) (tmpl : TemplateDescriptor) (e : GenError)
    (hf : catalog.find? (fun t => t.key == req.templateKey) = some tmpl)
    (hval : validate tmpl.schema req.bindings = .error e) :
    generate catalog req sp env fs = (.error e, fs) := by
  unfold generate; rw [hf]; dsimp only; rw [hval]

theorem generate_eq_rendfail (catalog : List TemplateDescriptor) (req : Request)
    (sp : List String) (env : IOEnv) (fs : Fs) (tmpl : TemplateDescriptor)
    (ctx : List (String × String)) (e : GenError)
    (hf : catalog.find? (fun t => t.key == req.templateKey) = some tmpl)
    (hval : validate tmpl.schema req.bindings = .ok ctx)
    (hrend : renderTemplate ctx tmpl.files = .error e) :
    generate catalog req sp env fs = (.error e, fs) := by
  unfold generate; rw [hf]; dsimp only; rw [hval]; dsimp only; rw [hrend]

theorem generate_eq_stagefail (catalog : List TemplateDescriptor) (req : Request)
    (sp : List String) (env : IOEnv) (fs : Fs) (tmpl : TemplateDescriptor)
    (ctx : List (String × String)) (staged : List (List String × String))
    (hf : catalog.find? (fun t => t.key == req.templateKey) = some tmpl)
    (hval : validate tmpl.schema req.bindings = .ok ctx)
    (hrend : renderTemplate ctx tmpl.files = .ok staged)
    (hso : env.stagingOk = false) :
    generate catalog req sp env fs =
      (.error .StagingIOFailure, eraseUnder (stageWrite fs sp staged) sp) := by
  unfold generate; rw [hf]; dsimp only; rw [hval]; dsimp only; rw [hrend]; dsimp only
  rw [hso]; simp

theorem generate_eq_commit (catalog : List TemplateDescriptor) (req : Request)
    (sp : List String) (env : IOEnv) (fs : Fs) (tmpl : TemplateDescriptor)
    (ctx : List (String × String)) (staged : List (List String × String))
    (hf : catalog.find? (fun t => t.key == req.templateKey) = some tmpl)
    (hval : validate tmpl.schema req.bindings = .ok ctx)
    (hrend : renderTemplate ctx tmpl.files = .ok staged)
    (hso : env.stagingOk = true) :
    generate catalog req sp env fs = commitPhase req sp env fs staged := by
  unfold generate; rw [hf]; dsimp only; rw [hval]; dsimp only; rw [hrend]; dsimp only
  rw [hso]; simp

theorem commitPhase_eq_conflict (req : Request) (sp : List String) (env : IOEnv)
    (fs : Fs) (staged : List (List String × String)) (p : List String)
    (hcol : findCollision fs req.targetPath = some p)
    (hpol : req.conflictPolicy = .abort) :
    commitPhase req sp env fs staged =
      (.error (.FileConflict p), eraseUnder (stageWrite fs sp staged) sp) := by
  unfold commitPhase; rw [hcol]; dsimp only; rw [hpol]; simp

theorem commitPhase_eq_ok_nocol (req : Request) (sp : List String) (env : IOEnv)
    (fs : Fs) (staged : List (List String × String))
    (hcol : findCollision fs req.targetPath = none) (hco : env.commitOk = true) :
    commitPhase req sp env fs staged =
      (.ok ⟨req.targetPath, mkManifest staged⟩,
        promote (stageWrite fs sp staged) sp req.targetPath staged) := by
  unfold commitPhase; rw [hcol]; dsimp only; rw [hco]; simp

theorem commitPhase_eq_ok_over (req : Request) (sp : List String) (env : IOEnv)
    (fs : Fs) (staged : List (List String × String)) (p : List String)
    (hcol : findCollision fs req.targetPath = some p)
    (hpol : req.conflictPolicy = .overwrite) (hco : env.commitOk = true) :
    commitPhase req sp env fs staged =
      (.ok ⟨req.targetPath, mkManifest staged⟩,
        promote (stageWrite fs sp staged) sp req.targetPath staged) := by
  unfold commitPhase; rw [hcol]; dsimp only; rw [hpol]; simp [hco]

theorem commitPhase_eq_commitfail_nocol (req : Request) (sp : List String) (env : IOEnv)
    (fs : Fs) (staged : List (List String × String))
    (hcol : findCollision fs req.targetPath = none) (hco : env.commitOk = false) :
    commitPhase req sp env fs staged =
      (.error .CommitIOFailure, eraseUnder (stageWrite fs sp staged) sp) := by
  unfold commitPhase; rw [hcol]; dsimp only; rw [hco]; simp

theorem commitPhase_eq_commitfail_over (req : Request) (sp : List String) (env : IOEnv)
    (fs : Fs) (staged : List (List String × String)) (p : List String)
    (hcol : findCollision fs req.targetPath = some p)
    (hpol : req.conflictPolicy = .overwrite) (hco : env.commitOk = false) :
    commitPhase req sp env fs staged =
      (.error .CommitIOFailure, eraseUnder (stageWrite fs sp staged) sp) := by
  unfold commitPhase; rw [hcol]; dsimp only; rw [hpol]; simp [hco]

theorem generate_error_fs (catalog : List TemplateDescriptor) (req : Request)
    (sp : List String) (env : IOEnv) (fs : Fs) (e : GenError)
    (hfresh : hasEntryUnder fs sp = false)
    (herr : (generate catalog req sp env fs).1 = .error e) :
    (generate catalog req sp env fs).2 = fs := by
  rcases hf : catalog.find? (fun t => t.key == req.templateKey) with _ | tmpl
  · rw [generate_eq_notfound catalog req sp env fs hf]
  · rcases hval : validate tmpl.schema req.bindings with e' | ctx
    · rw [generate_eq_valfail catalog req sp env fs tmpl e' hf hval]
    · rcases hrend : renderTemplate ctx tmpl.files with e' | staged
      · rw [generate_eq_rendfail catalog req sp env fs tmpl ctx e' hf hval hrend]
      · rcases hso : env.stagingOk
        · rw [generate_eq_stagefail catalog req sp env fs tmpl ctx staged hf hval hrend hso]
          exact eraseUnder_stageWrite fs sp staged hfresh
        · rw [generate_eq_commit catalog req sp env fs tmpl ctx staged hf hval hrend hso] at herr ⊢
          rcases hcol : findCollision fs req.targetPath with _ | p
          · rcases hco : env.commitOk
            · rw [commitPhase_eq_commitfail_nocol req sp env fs staged hcol hco]
              exact eraseUnder_stageWrite fs sp staged hfresh
            · rw [commitPhase_eq_ok_nocol req sp env fs staged hcol hco] at herr
              cases herr
          · rcases hpol : req.conflictPolicy
            · rw [commitPhase_eq_conflict req sp env fs staged p hcol hpol]
              exact eraseUnder_stageWrite fs sp staged hfresh
            · rcases hco : env.commitOk
              · rw [commitPhase_eq_commitfail_over req sp env fs staged p hcol hpol hco]
                exact eraseUnder_stageWrite fs sp staged hfresh
              · rw [commitPhase_eq_ok_over req sp env fs staged p hcol hpol hco] at herr
                cases herr

/-! ## Inversion lemmas -/

theorem mapME_error {α β : Type} (f : α → Except GenError β) (l : List α) (e : GenError)
    (h : mapME f l = .error e) : ∃ a ∈ l, f a = .error e := by
  induction l with
  | nil => cases h
  | cons a l ih =>
    rw [mapME] at h
    rcases hfa : f a with e' | b
    · rw [hfa] at h
      injection h with h'
      exact ⟨a, List.mem_cons_self a l, by rw [hfa, h']⟩
    · rw [hfa] at h
      rcases hm : mapME f l with e2 | bs
      · rw [hm] at h
        simp only [Except.map_error] at h
        injection h with h'
        rw [h'] at hm
        obtain ⟨x, hx, hfx⟩ := ih hm
        exact ⟨x, List.mem_cons_of_mem a hx, hfx⟩
      · rw [hm] at h
        simp [Except.map] at h

theorem mapME_ok_mem {α β : Type} (f : α → Except GenError β) (l : List α)
    (bs : List β) (h : mapME f l = .ok bs) :
    ∀ b ∈ bs, ∃ a ∈ l, f a = .ok b := by
  induction l generalizing bs with
  | nil =>
    rw [mapME] at h
    injection h with h'
    intro b hb
    rw [← h'] at hb
    cases hb
  | cons a l ih =>
    rw [mapME] at h
    rcases hfa : f a with e' | b0
    · rw [hfa] at h; cases h
    · rw [hfa] at h
      rcases hm : mapME f l with e2 | bs0
      · rw [hm] at h; cases h
      · rw [hm] at h
        simp only [Except.map_ok] at h
        injection h with h'
        intro b hb
        rw [← h'] at hb
        rcases List.mem_cons.mp hb with hb0 | hbs
        · exact ⟨a, List.mem_cons_self a l, by rw [hfa, hb0]⟩
        · obtain ⟨x, hx, hfx⟩ := ih bs0 hm b hbs
          exact ⟨x, List.mem_cons_of_mem a hx, hfx⟩

theorem renderFile_error_shape (ctx : List (String × String)) (f : List String × String)
    (e : GenError) (h : renderFile ctx f = .error e) :
    ∃ id, e = .UndefinedVariable id (pathStr f.1) := by
  unfold renderFile at h
  rcases hm : mapME (fun seg =>
      match renderString ctx seg with
      | .ok r => .ok r
      | .error (.UndefinedVariable id) => .error (.UndefinedVariable id (pathStr f.1))) f.1 with e' | segs
  · rw [hm] at h
    injection h with h'
    obtain ⟨a, ha, hfa⟩ := mapME_error _ _ _ hm
    rcases hra : renderString ctx a with er | r
    · rcases er with ⟨id⟩
      rw [hra] at hfa
      injection hfa with h2
      exact ⟨id, by rw [← h', ← h2]⟩
    · rw [hra] at hfa; cases hfa
  · rw [hm] at h
    rcases hrc : renderString ctx f.2 with er | r
    · rcases er with ⟨id⟩
      rw [hrc] at h
      injection h with h'
      exact ⟨id, h'.symm⟩
    · rw [hrc] at h; cases h

theorem renderFile_ok_content (ctx : List (String × String)) (f g : List String × String)
    (h : renderFile ctx f = .ok g) :
    renderString ctx f.2 = .ok g.2 := by
  unfold renderFile at h
  rcases hm : mapME (fun seg =>
      match renderString ctx seg with
      | .ok r => .ok r
      | .error (.UndefinedVariable id) => .error (.UndefinedVariable id (pathStr f.1))) f.1 with e' | segs
  · rw [hm] at h; cases h
  · rw [hm] at h
    rcases hrc : renderString ctx f.2 with er | r
    · rcases er with ⟨id⟩
      rw [hrc] at h; cases h
    · rw [hrc] at h
      injection h with h'
      rw [← h']

theorem findCollision_none_of_fresh (fs : Fs) (t : List String)
    (h : hasEntryUnder fs t = false) : findCollision fs t = none := by
  unfold findCollision
  rw [List.find?_eq_none.mpr]
  · rfl
  · intro e he
    simp [hasEntryUnder_false fs t h e he]

theorem findCollision_of_nonempty (fs : Fs) (t : List String)
    (h : hasEntryUnder fs t = true) :
    ∃ p, findCollision fs t = some p ∧ isUnder t p = true ∧ ∃ c, (p, c) ∈ fs := by
  unfold hasEntryUnder at h
  have hsome : (fs.find? (fun e => isUnder t e.1)).isSome := by
    apply List.find?_isSome.mpr
    obtain ⟨e, he, hp⟩ := List.any_eq_true.mp h
    exact ⟨e, he, hp⟩
  obtain ⟨w, hw⟩ := Option.isSome_iff_exists.mp hsome
  refine ⟨w.1, ?_, ?_, w.2, ?_⟩
  · unfold findCollision; rw [hw]; rfl
  · simpa using List.find?_some hw
  · exact List.mem_of_find?_eq_some hw

/-! ## Claim theorems -/

/-- C1: for every generation request that fails during the Staging or
Committing phase (indeed for any failing request), the file system after
the call equals the file system before it: the target path is exactly as
it was (absent if it was absent, byte-for-byte unchanged if present), and
the staging location holds no leftover files. -/
theorem C1_staging_commit_atomicity (catalog : List TemplateDescriptor) (req : Request)
    (sp : List String) (env : IOEnv) (fs : Fs) (e : GenError)
    (hfresh : hasEntryUnder fs sp = false)
    (herr : (generate catalog req sp env fs).1 = .error e) :
    (generate catalog req sp env fs).2 = fs ∧
      projectFiles (generate catalog req sp env fs).2 req.targetPath =
        projectFiles fs req.targetPath ∧
      hasEntryUnder (generate catalog req sp env fs).2 sp = false := by
  have h := generate_error_fs catalog req sp env fs e hfresh herr
  exact ⟨h, by rw [h], by rw [h]; exact hfresh⟩

/-- Witness for C1: a staging-phase IO failure on the rust_actix template
leaves a pre-existing file under the target untouched. -/
theorem C1_witness :
    (generate miaCatalog
        ⟨"rust_actix", [("project_name", "my-service")], ["tmp", "out"], .abort⟩
        ["stage", "s1"] ⟨false, true⟩ [(["tmp", "out", "old.txt"], "keep")]).2 =
      [(["tmp", "out", "old.txt"], "keep")] :=
  (C1_staging_commit_atomicity miaCatalog
    ⟨"rust_actix", [("project_name", "my-service")], ["tmp", "out"], .abort⟩
    ["stage", "s1"] ⟨false, true⟩ [(["tmp", "out", "old.txt"], "keep")]
    .StagingIOFailure (by decide) (by rfl)).1

/-- C5: omitting a declared required variable that has no default makes the
request fail with `MissingRequiredVariable`, and the file system is not
written at all. -/
theorem C5_missing_required (catalog : List TemplateDescriptor) (req : Request)
    (sp : List String) (env : IOEnv) (fs : Fs) (tmpl : TemplateDescriptor) (v : VarSpec)
    (hf : catalog.find? (fun t => t.key == req.templateKey) = some tmpl)
    (hv : v ∈ tmpl.schema) (hreq : v.required = true) (hdef : v.default = none)
    (hlook : lookupVar req.bindings v.name = none) :
    ∃ w, generate catalog req sp env fs = (.error (.MissingRequiredVariable w), fs) := by
  obtain ⟨w, hw⟩ := validate_missing tmpl.schema req.bindings v hv hreq hdef hlook
  exact ⟨w, generate_eq_valfail catalog req sp env fs tmpl _ hf hw⟩

/-- Witness for C5: requesting rust_actix with no bindings fails with
`MissingRequiredVariable` and writes nothing. -/
theorem C5_witness :
    ∃ w, generate miaCatalog ⟨"rust_actix", [], ["tmp", "out"], .abort⟩
        ["stage"] ⟨true, true⟩ [] = (.error (.MissingRequiredVariable w), []) :=
  C5_missing_required miaCatalog ⟨"rust_actix", [], ["tmp", "out"], .abort⟩
    ["stage"] ⟨true, true⟩ [] rustActixTemplate ⟨"project_name", true, none, .packageName⟩
    (by rfl) (by decide) (by rfl) (by rfl) (by rfl)

/-- The rust_actix main.rs as rendered with `project_name = "my-service"`. -/
def rustRendered : String := rustA ++ "my-service" ++ rustB ++ "my-service" ++ rustC

/-- C3: when the target path exists and is non-empty, a request that
reaches the Committing phase fails with `FileConflict` naming a colliding
path under the target and leaves the file system untouched under the
abort policy; under the overwrite policy it succeeds and its manifest is
the manifest of a fresh render into an empty target. -/
theorem C3_conflict_policy (catalog : List TemplateDescriptor) (req : Request)
    (sp : List String) (env : IOEnv) (fs : Fs) (tmpl : TemplateDescriptor)
    (ctx : List (String × String)) (staged : List (List String × String))
    (hf : catalog.find? (fun t => t.key == req.templateKey) = some tmpl)
    (hval : validate tmpl.schema req.bindings = .ok ctx)
    (hrend : renderTemplate ctx tmpl.files = .ok staged)
    (hso : env.stagingOk = true) (hco : env.commitOk = true)
    (hne : hasEntryUnder fs req.targetPath = true)
    (hfresh : hasEntryUnder fs sp = false) :
    (req.conflictPolicy = .abort →
      ∃ p, generate catalog req sp env fs = (.error (.FileConflict p), fs) ∧
        isUnder req.targetPath p = true ∧ ∃ c, (p, c) ∈ fs) ∧
    (req.conflictPolicy = .overwrite →
      (generate catalog req sp env fs).1 = .ok ⟨req.targetPath, mkManifest staged⟩ ∧
      (generate catalog req sp env []).1 = .ok ⟨req.targetPath, mkManifest staged⟩ ∧
      projectFiles (generate catalog req sp env fs).2 req.targetPath = staged) := by
  obtain ⟨p, hcol, hup, c, hmem⟩ := findCollision_of_nonempty fs req.targetPath hne
  constructor
  · intro hpol
    refine ⟨p, ?_, hup, c, hmem⟩
    rw [generate_eq_commit catalog req sp env fs tmpl ctx staged hf hval hrend hso,
        commitPhase_eq_conflict req sp env fs staged p hcol hpol,
        eraseUnder_stageWrite fs sp staged hfresh]
  · intro hpol
    have hover := commitPhase_eq_ok_over req sp env fs staged p hcol hpol hco
    have hmain := generate_eq_commit catalog req sp env fs tmpl ctx staged hf hval hrend hso
    refine ⟨?_, ?_, ?_⟩
    · rw [hmain, hover]
    · rw [generate_eq_commit catalog req sp env [] tmpl ctx staged hf hval hrend hso,
          commitPhase_eq_ok_nocol req sp env [] staged
            (findCollision_none_of_fresh [] req.targetPath (by rfl)) hco]
    · rw [hmain, hover]
      exact projectFiles_promote (stageWrite fs sp staged) sp req.targetPath staged

/-- Witness for C3: an existing file under `tmp/out` makes the abort-policy
rust_actix request fail with `FileConflict` on that file, leaving the file
system unchanged. -/
theorem C3_witness :
    ∃ p, generate miaCatalog
        ⟨"rust_actix", [("project_name", "my-service")], ["tmp", "out"], .abort⟩
        ["stage"] ⟨true, true⟩ [(["tmp", "out", "old.txt"], "keep")] =
      (.error (.FileConflict p), [(["tmp", "out", "old.txt"], "keep")]) ∧
      isUnder ["tmp", "out"] p = true ∧ ∃ c, (p, c) ∈ [(["tmp", "out", "old.txt"], "keep")] :=
  (C3_conflict_policy miaCatalog
    ⟨"rust_actix", [("project_name", "my-service")], ["tmp", "out"], .abort⟩
    ["stage"] ⟨true, true⟩ [(["tmp", "out", "old.txt"], "keep")]
    rustActixTemplate [("project_name", "my-service")] [(["src", "main.rs"], rustRendered)]
    (by rfl) (by rfl) (by rfl) (by rfl) (by rfl) (by decide) (by decide)).1 rfl

/-- C4: rendering is deterministic — the pure `renderString` yields the
same output on the same input, and two generations of the same template
and bindings into two fresh target paths succeed with byte-identical
manifests and identical file contents under their respective targets. -/
theorem C4_determinism :
    (∀ ctx s, renderString ctx s = renderString ctx s) ∧
    (∀ (catalog : List TemplateDescriptor) (key : String)
        (vars : List (String × String)) (pol₁ pol₂ : ConflictPolicy)
        (t₁ t₂ sp₁ sp₂ : List String) (env₁ env₂ : IOEnv) (fs₁ fs₂ : Fs)
        (tmpl : TemplateDescriptor) (ctx : List (String × String))
        (staged : List (List String × String)),
      catalog.find? (fun t => t.key == key) = some tmpl →
      validate tmpl.schema vars = .ok ctx →
      renderTemplate ctx tmpl.files = .ok staged →
      env₁.stagingOk = true → env₁.commitOk = true →
      env₂.stagingOk = true → env₂.commitOk = true →
      hasEntryUnder fs₁ t₁ = false → hasEntryUnder fs₂ t₂ = false →
      (generate catalog ⟨key, vars, t₁, pol₁⟩ sp₁ env₁ fs₁).1 = .ok ⟨t₁, mkManifest staged⟩ ∧
      (generate catalog ⟨key, vars, t₂, pol₂⟩ sp₂ env₂ fs₂).1 = .ok ⟨t₂, mkManifest staged⟩ ∧
      projectFiles (generate catalog ⟨key, vars, t₁, pol₁⟩ sp₁ env₁ fs₁).2 t₁ =
        projectFiles (generate catalog ⟨key, vars, t₂, pol₂⟩ sp₂ env₂ fs₂).2 t₂) := by
  refine ⟨fun ctx s => rfl, ?_⟩
  intro catalog key vars pol₁ pol₂ t₁ t₂ sp₁ sp₂ env₁ env₂ fs₁ fs₂ tmpl ctx staged
    hf hval hrend hso₁ hco₁ hso₂ hco₂ hfr₁ hfr₂
  have h₁ := generate_eq_commit catalog ⟨key, vars, t₁, pol₁⟩ sp₁ env₁ fs₁ tmpl ctx staged
    hf hval hrend hso₁
  have h₂ := generate_eq_commit catalog ⟨key, vars, t₂, pol₂⟩ sp₂ env₂ fs₂ tmpl ctx staged
    hf hval hrend hso₂
  have hc₁ := commitPhase_eq_ok_nocol ⟨key, vars, t₁, pol₁⟩ sp₁ env₁ fs₁ staged
    (findCollision_none_of_fresh fs₁ t₁ hfr₁) hco₁
  have hc₂ := commitPhase_eq_ok_nocol ⟨key, vars, t₂, pol₂⟩ sp₂ env₂ fs₂ staged
    (findCollision_none_of_fresh fs₂ t₂ hfr₂) hco₂
  refine ⟨?_, ?_, ?_⟩
  · rw [h₁, hc₁]
  · rw [h₂, hc₂]
  · rw [h₁, hc₁, h₂, hc₂]
    rw [projectFiles_promote, projectFiles_promote]

/-- Witness for C4: two rust_actix generations into distinct fresh targets
yield the same manifest and the same rendered tree. -/
theorem C4_witness :
    (generate miaCatalog
        ⟨"rust_actix", [("project_name", "my-service")], ["out", "a"], .abort⟩
        ["stage", "one"] ⟨true, true⟩ []).1 =
      .ok ⟨["out", "a"], mkManifest [(["src", "main.rs"], rustRendered)]⟩ ∧
    (generate miaCatalog
        ⟨"rust_actix", [("project_name", "my-service")], ["work", "b"], .overwrite⟩
        ["stage", "two"] ⟨true, true⟩ [(["elsewhere"], "z")]).1 =
      .ok ⟨["work", "b"], mkManifest [(["src", "main.rs"], rustRendered)]⟩ ∧
    projectFiles (generate miaCatalog
        ⟨"rust_actix", [("project_name", "my-service")], ["out", "a"], .abort⟩
        ["stage", "one"] ⟨true, true⟩ []).2 ["out", "a"] =
      projectFiles (generate miaCatalog
        ⟨"rust_actix", [("project_name", "my-service")], ["work", "b"], .overwrite⟩
        ["stage", "two"] ⟨true, true⟩ [(["elsewhere"], "z")]).2 ["work", "b"] :=
  C4_determinism.2 miaCatalog "rust_actix" [("project_name", "my-service")]
    .abort .overwrite ["out", "a"] ["work", "b"] ["stage", "one"] ["stage", "two"]
    ⟨true, true⟩ ⟨true, true⟩ [] [(["elsewhere"], "z")]
    rustActixTemplate [("project_name", "my-service")] [(["src", "main.rs"], rustRendered)]
    (by rfl) (by rfl) (by rfl) (by rfl) (by rfl) (by rfl) (by rfl) (by decide) (by decide)

/-- C6: the `package-name` rule rejects every value containing an
uppercase letter or whitespace or starting with a digit (and `validate`
then fails with `InvalidVariable` citing the variable and the rule),
accepts `"my-service"`, and a succeeding rust_actix request writes the
accepted value wherever the template source contained the
`project_name` token. -/
theorem C6_package_name_rule :
    (∀ s : String, ((∃ c ∈ s.data, c.isUpper = true) ∨ (∃ c ∈ s.data, c.isWhitespace = true) ∨
        (∃ c cs, s.data = c :: cs ∧ c.isDigit = true)) →
      checkRule .packageName s = false) ∧
    (∀ (spec : VarSpec) (bindings : List (String × String)) (val : String),
        spec.rule = .packageName → lookupVar bindings spec.name = some val →
        checkRule .packageName val = false →
        validate [spec] bindings = .error (.InvalidVariable spec.name .packageName)) ∧
    checkRule .packageName "my-service" = true ∧
    checkRule .packageName "my_service" = true ∧
    (generate miaCatalog
        ⟨"rust_actix", [("project_name", "my-service")], ["tmp", "out"], .abort⟩
        ["stage"] ⟨true, true⟩ []).2 =
      [(["tmp", "out", "src", "main.rs"], rustRendered)] ∧
    rustRendered = rustA ++ "my-service" ++ rustB ++ "my-service" ++ rustC := by
  refine ⟨?_, ?_, by decide, by decide, by rfl, rfl⟩
  · intro s hs
    rcases hs with ⟨c, hc, hu⟩ | ⟨c, hc, hw⟩ | ⟨c, cs, hd, hdig⟩
    · exact checkRule_pkg_false_of_mem s c hc (pkgChar_false_of_isUpper c hu)
    · exact checkRule_pkg_false_of_mem s c hc (pkgChar_false_of_isWhitespace c hw)
    · exact checkRule_pkg_false_of_digit_head s c cs hd hdig
  · intro spec bindings val hrule hlook hbad
    have := validate_invalid spec bindings val hlook (by rw [hrule]; exact hbad)
    rw [hrule] at this
    exact this

/-- Witness for C6: `"My Service"` is rejected with `InvalidVariable`,
`"my-service"` is accepted. -/
theorem C6_witness :
    checkRule .packageName "My Service" = false ∧
    validate [⟨"project_name", true, none, .packageName⟩]
        [("project_name", "My Service")] =
      .error (.InvalidVariable "project_name" .packageName) :=
  ⟨C6_package_name_rule.1 "My Service" (Or.inl ⟨'M', by decide, by decide⟩),
   C6_package_name_rule.2.1 ⟨"project_name", true, none, .packageName⟩
     [("project_name", "My Service")] "My Service" rfl (by rfl)
     (C6_package_name_rule.1 "My Service" (Or.inl ⟨'M', by decide, by decide⟩))⟩

/-- Splitting a character list at its first non-identifier character. -/
theorem split_first_nonident (cs : List Char) (h : cs.all isIdentChar = false) :
    ∃ i d r, cs = i ++ d :: r ∧ i.all isIdentChar = true ∧ isIdentChar d = false := by
  induction cs with
  | nil => simp at h
  | cons c cs ih =>
    rcases hc : isIdentChar c
    · exact ⟨[], c, cs, rfl, rfl, hc⟩
    · have hcs : cs.all isIdentChar = false := by
        rw [List.all_cons, hc] at h
        simpa using h
      obtain ⟨i, d, r, he, hi, hd⟩ := ih hcs
      exact ⟨c :: i, d, r, by rw [he]; rfl, by simp [List.all_cons, hc, hi], hd⟩

/-- C7: a string of the form double-open-brace, identifier (letter first,
then letters, digits, underscores), double-close-brace is treated as a
placeholder token — substituted when bound, a hard `UndefinedVariable`
otherwise — while a braced string whose body is not an identifier is left
untouched, and the escaped doubled delimiters render as literal double
braces without triggering substitution. -/
theorem C7_token_grammar :
    (∀ (ctx : List (String × String)) (id v : String), isIdentStr id = true →
        lookupVar ctx id = some v →
        renderString ctx ("\x7b\x7b" ++ id ++ "\x7d\x7d") = .ok v) ∧
    (∀ (ctx : List (String × String)) (id : String), isIdentStr id = true →
        lookupVar ctx id = none →
        renderString ctx ("\x7b\x7b" ++ id ++ "\x7d\x7d") =
          .error (.UndefinedVariable id)) ∧
    (∀ (ctx : List (String × String)) (s : String), braceFree s.data = true →
        isIdentStr s = false →
        renderString ctx ("\x7b\x7b" ++ s ++ "\x7d\x7d") =
          .ok ("\x7b\x7b" ++ s ++ "\x7d\x7d")) ∧
    (∀ ctx : List (String × String),
        renderString ctx "\x7b\x7b\x7b\x7b" = .ok "\x7b\x7b" ∧
        renderString ctx "\x7d\x7d\x7d\x7d" = .ok "\x7d\x7d") := by
  have hdata : ∀ s : String, ("\x7b\x7b" ++ s ++ "\x7d\x7d").data =
      '{' :: '{' :: (s.data ++ '}' :: '}' :: []) := by
    intro s
    simp [String.data_append]
  refine ⟨?_, ?_, ?_, fun ctx => ⟨rfl, rfl⟩⟩
  · intro ctx id v hid hv
    rw [renderString, hdata id, renderAux_token ctx id hid, hv]
    simp only [show renderAux ctx [] none = .ok [] from rfl, Except.map_ok]
    refine congrArg Except.ok (String.ext ?_)
    simp
  · intro ctx id hid hv
    rw [renderString, hdata id, renderAux_token ctx id hid, hv]
    rfl
  · intro ctx s hbf hnid
    rw [renderString, hdata s]
    rcases hsd : s.data with _ | ⟨c, cs⟩
    · simp only [List.nil_append]
      rw [show renderAux ctx ('{' :: '{' :: ('}' :: '}' :: [])) none =
          .ok ('{' :: '{' :: '}' :: '}' :: []) from rfl]
      simp only [Except.map_ok]
      refine congrArg Except.ok (String.ext ?_)
      simp [hdata, hsd]
    · rw [hsd] at hbf
      obtain ⟨hc1, hc2, hcs⟩ := braceFree_cons c cs hbf
      have htarget : ("\x7b\x7b" ++ s ++ "\x7d\x7d").data =
          '{' :: '{' :: c :: (cs ++ '}' :: '}' :: []) := by
        rw [hdata s, hsd]; rfl
      by_cases hletter : isLetter c = true
      · have hnotall : cs.all isIdentChar = false := by
          rcases hall : cs.all isIdentChar
          · rfl
          · exfalso
            rw [isIdentStr, hsd] at hnid
            simp [hletter, hall] at hnid
        obtain ⟨i, d, r, he, hi, hd⟩ := split_first_nonident cs hnotall
        have hbf_dr : braceFree (d :: r) = true := by
          rw [he, braceFree_append] at hcs
          rcases hx : braceFree (d :: r)
          · rw [hx, Bool.and_false] at hcs; cases hcs
          · rfl
        obtain ⟨hd1, hd2, hbr⟩ := braceFree_cons d r hbf_dr
        rw [List.cons_append, renderAux_openTok ctx c hletter]
        have hshape : cs ++ '}' :: '}' :: [] = i ++ (d :: (r ++ '}' :: '}' :: [])) := by
          rw [he]; simp
        rw [hshape, renderAux_scanIdent ctx i hi [c],
            renderAux_scanBreak ctx d hd (r ++ '}' :: '}' :: []) ([c] ++ i)
              (fun r' hdq _ => absurd hdq hd2),
            renderAux_append_braceFree ctx r hbr,
            show renderAux ctx ('}' :: '}' :: []) none = .ok ('}' :: '}' :: []) from rfl]
        simp only [Except.map_ok]
        refine congrArg Except.ok (String.ext ?_)
        rw [htarget]
        simp [he]
      · have hletter' : isLetter c = false := by simpa using hletter
        rw [List.cons_append,
            renderAux_openNoTok ctx c hletter' (cs ++ '}' :: '}' :: [])
              (fun r' hcq _ => absurd hcq hc1),
            renderAux_append_braceFree ctx cs hcs,
            show renderAux ctx ('}' :: '}' :: []) none = .ok ('}' :: '}' :: []) from rfl]
        simp only [Except.map_ok]
        refine congrArg Except.ok (String.ext ?_)
        rw [htarget]

/-- Witness for C7: a bound token substitutes, a non-identifier braced
body stays literal, escapes yield literal braces. -/
theorem C7_witness :
    renderString [("name", "x")] ("\x7b\x7b" ++ "name" ++ "\x7d\x7d") = .ok "x" ∧
    renderString [] ("\x7b\x7b" ++ "my name" ++ "\x7d\x7d") =
      .ok ("\x7b\x7b" ++ "my name" ++ "\x7d\x7d") ∧
    renderString [] "\x7b\x7b\x7b\x7b" = .ok "\x7b\x7b" :=
  ⟨C7_token_grammar.1 [("name", "x")] "name" "x" (by decide) (by rfl),
   C7_token_grammar.2.2.1 [] "my name" (by decide) (by decide),
   (C7_token_grammar.2.2.2 []).1⟩

theorem renderString_around (ctx : List (String × String)) (id v pre post : String)
    (hid : isIdentStr id = true) (hv : lookupVar ctx id = some v)
    (hpre : braceFree pre.data = true) (hpost : braceFree post.data = true) :
    renderString ctx (pre ++ "\x7b\x7b" ++ id ++ "\x7d\x7d" ++ post) =
      .ok (pre ++ v ++ post) := by
  have hdec : (pre ++ "\x7b\x7b" ++ id ++ "\x7d\x7d" ++ post).data =
      pre.data ++ ('{' :: '{' :: (id.data ++ '}' :: '}' :: post.data)) := by
    simp [String.data_append]
  rw [renderString, hdec, renderAux_append_braceFree ctx pre.data hpre,
      renderAux_token ctx id hid, hv, renderAux_braceFree_ok ctx post.data hpost]
  simp only [Except.map_ok]
  refine congrArg Except.ok (String.ext ?_)
  simp [String.data_append]

/-- C8: placeholder substitution applies to relative file and directory
names, not only contents: a path segment containing the token is rewritten
with the bound value in the rendered file, and a generated project's tree
carries the renamed path. -/
theorem C8_path_substitution (ctx : List (String × String)) (id v : String)
    (pre post content : String)
    (hid : isIdentStr id = true) (hv : lookupVar ctx id = some v)
    (hpre : braceFree pre.data = true) (hpost : braceFree post.data = true)
    (hcontent : braceFree content.data = true) :
    renderFile ctx ([pre ++ "\x7b\x7b" ++ id ++ "\x7d\x7d" ++ post], content) =
      .ok ([pre ++ v ++ post], content) ∧
    (generate [⟨"toy", [(["\x7b\x7bproject_name\x7d\x7d", "main.go"], "hello")],
        [⟨"project_name", true, none, .packageName⟩]⟩]
        ⟨"toy", [("project_name", "my-app")], ["out"], .abort⟩
        ["stage"] ⟨true, true⟩ []).2 =
      [(["out", "my-app", "main.go"], "hello")] := by
  refine ⟨?_, by rfl⟩
  have hseg := renderString_around ctx id v pre post hid hv hpre hpost
  have hcont : renderString ctx content = .ok content := by
    rw [renderString, renderAux_braceFree_ok ctx content.data hcontent]
    rfl
  unfold renderFile
  rw [mapME]
  dsimp only
  rw [hseg, hcont]
  rfl

/-- Witness for C8: the toy template's path segment token is rewritten
with the bound value. -/
theorem C8_witness :
    renderFile [("project_name", "my-app")]
        (["" ++ "\x7b\x7b" ++ "project_name" ++ "\x7d\x7d" ++ ""], "hello") =
      .ok (["" ++ "my-app" ++ ""], "hello") ∧
    (generate [⟨"toy", [(["\x7b\x7bproject_name\x7d\x7d", "main.go"], "hello")],
        [⟨"project_name", true, none, .packageName⟩]⟩]
        ⟨"toy", [("project_name", "my-app")], ["out"], .abort⟩
        ["stage"] ⟨true, true⟩ []).2 =
      [(["out", "my-app", "main.go"], "hello")] :=
  C8_path_substitution [("project_name", "my-app")] "project_name" "my-app" "" "" "hello"
    (by decide) (by rfl) (by decide) (by decide) (by decide)

/-- C9: in the rust_actix template every placeholder token is
`project_name`, occurring exactly twice — in the welcome message of
`index` and in the startup line of `main` — and never in a file or
directory name; binding exactly `project_name` resolves every token and
places the bound value at exactly those two positions. -/
theorem C9_rust_actix_tokens :
    lexTokens rustActixMainRs = ["project_name", "project_name"] ∧
    rustActixTemplate.files = [(["src", "main.rs"], rustActixMainRs)] ∧
    lexTokens "src" = [] ∧ lexTokens "main.rs" = [] ∧
    (∀ v : String, renderString [("project_name", v)] rustActixMainRs =
      .ok (rustA ++ v ++ rustB ++ v ++ rustC)) := by
  refine ⟨by rfl, rfl, rfl, rfl, ?_⟩
  intro v
  exact renderString_rustActix [("project_name", v)] v (by simp [lookupVar])

/-- C10: rendering rust_actix changes only the two `project_name` tokens:
the file decomposes into three token-free chunks around the two tokens —
every single-brace character lies in a chunk and matches no token — and
the rendered output is exactly those chunks, byte for byte, around the
substituted value. -/
theorem C10_frame_preservation :
    rustActixMainRs =
      rustA ++ "\x7b\x7bproject_name\x7d\x7d" ++ rustB ++
        "\x7b\x7bproject_name\x7d\x7d" ++ rustC ∧
    noDoubles rustA.data = true ∧ noDoubles rustB.data = true ∧
    noDoubles rustC.data = true ∧
    hasTokenSub rustA.data = false ∧ hasTokenSub rustB.data = false ∧
    hasTokenSub rustC.data = false ∧
    isTokenStr "\x7b\x7bproject_name\x7d\x7d" = true ∧
    (∀ v : String, renderString [("project_name", v)] rustActixMainRs =
      .ok (rustA ++ v ++ rustB ++ v ++ rustC)) ∧
    renderString [("project_name", "my-service")] rustActixMainRs = .ok rustRendered := by
  refine ⟨?_, by decide, by decide, by decide, by decide, by decide, by decide,
    by decide, ?_, ?_⟩
  · refine String.ext ?_
    rfl
  · intro v
    exact renderString_rustActix [("project_name", v)] v (by simp [lookupVar])
  · exact renderString_rustActix [("project_name", "my-service")] "my-service"
      (by simp [lookupVar])

/-- C2 as stated is false: the escaped doubled-delimiter form lets render
succeed on a text that contains a grammar-matching token substring with an
unbound identifier, and the committed output itself contains a string
matching the token grammar. -/
theorem C2_counterexample_token_in_output :
    renderString [] "\x7b\x7b\x7b\x7ba\x7d\x7d\x7d\x7d" = .ok "\x7b\x7ba\x7d\x7d" ∧
    "\x7b\x7b\x7b\x7ba\x7d\x7d\x7d\x7d" = "\x7b\x7b" ++ "\x7b\x7ba\x7d\x7d" ++ "\x7d\x7d" ∧
    isTokenStr "\x7b\x7ba\x7d\x7d" = true ∧
    lookupVar [] "a" = none ∧
    hasTokenSub ("\x7b\x7ba\x7d\x7d").data = true ∧
    (generate [⟨"esc", [(["f.txt"], "\x7b\x7b\x7b\x7ba\x7d\x7d\x7d\x7d")], []⟩]
        ⟨"esc", [], ["out"], .abort⟩ ["stage"] ⟨true, true⟩ []).2 =
      [(["out", "f.txt"], "\x7b\x7ba\x7d\x7d")] := by
  refine ⟨by rfl, ?_, by rfl, rfl, by rfl, by rfl⟩
  refine String.ext ?_
  rfl

/-- C2 (amended): `render` fails with `UndefinedVariable id` exactly when
the token scanner — which gives the escape sequences precedence — finds an
unbound token in the text, `id` being the first such identifier, and
succeeds exactly when every scanned token is bound; a failing `renderFile`
names the offending identifier and the file it occurred in; and the
committed output contains no token-grammar string provided every brace of
the template belongs to a valid token and the context values are
brace-free (escaped delimiters or stray braces may deliberately leave
token-shaped text in the output). -/
theorem C2_render_undefined_iff (ctx : List (String × String)) (s : String) :
    (∀ id, renderString ctx s = .error (.UndefinedVariable id) ↔
        unboundIn ctx (lexTokens s) = some id) ∧
    ((∃ out, renderString ctx s = .ok out) ↔ unboundIn ctx (lexTokens s) = none) ∧
    (∀ (f : List String × String) (e : GenError), renderFile ctx f = .error e →
        ∃ id, e = .UndefinedVariable id (pathStr f.1)) ∧
    (∀ out, wellBracedStr s = true → (∀ p v, (p, v) ∈ ctx → braceFree v.data = true) →
        renderString ctx s = .ok out → hasTokenSub out.data = false) := by
  have hch := renderAux_lexAux ctx s.data none
  have hlex : lexTokens s = lexAux s.data none := rfl
  refine ⟨?_, ?_, fun f e h => renderFile_error_shape ctx f e h, ?_⟩
  · intro id
    rw [hlex]
    constructor
    · intro h
      rcases hu : unboundIn ctx (lexAux s.data none) with _ | id'
      · obtain ⟨out, ho⟩ := hch.2 hu
        rw [renderString, ho] at h
        simp [Except.map] at h
      · have he := hch.1 id' hu
        rw [renderString, he] at h
        simp only [Except.map_error] at h
        injection h with h'
        injection h' with h''
        rw [h'']
    · intro hu
      have he := hch.1 id hu
      rw [renderString, he]
      rfl
  · rw [hlex]
    constructor
    · rintro ⟨out, ho⟩
      rcases hu : unboundIn ctx (lexAux s.data none) with _ | id'
      · rfl
      · have he := hch.1 id' hu
        rw [renderString, he] at ho
        simp [Except.map] at ho
    · intro hu
      obtain ⟨out, ho⟩ := hch.2 hu
      exact ⟨String.mk out, by rw [renderString, ho]; rfl⟩
  · intro out hwb hctx hok
    rcases hra : renderAux ctx s.data none with e | l
    · rw [renderString, hra] at hok
      simp [Except.map] at hok
    · rw [renderString, hra] at hok
      simp only [Except.map_ok] at hok
      injection hok with h'
      have hbf := renderAux_wellBraced ctx hctx s.data none l hwb hra
      have hod : out.data = l := by rw [← h']
      rw [hod]
      exact hasTokenSub_of_braceFree l hbf

/-- Witness for C2 (amended): a well-braced template with a bound,
brace-free value renders to output containing no token-grammar string. -/
theorem C2_witness : hasTokenSub ("vz").data = false :=
  (C2_render_undefined_iff [("a", "v")] "\x7b\x7ba\x7d\x7dz").2.2.2 "vz" (by decide)
    (fun p v hv => by
      simp only [List.mem_singleton] at hv
      rw [show v = "v" from congrArg Prod.snd hv]
      decide)
    (by rfl)
